import Mathlib

/-!
# Robot firmware (PIC16F886): quadrature decoder, PWM driver, motion decisions

A shallow embedding of the interrupt handlers and main-loop bodies of the
`3 - dc motor` and `4 - autonomous task` programs, and of the timer-0 interrupt
of the `1 - sensor read` and `2 - serial communication` programs.

Machine model (XC8 on PIC16): `int` and `int16_t` are 16-bit two's complement,
`char` registers are 8 bits wide.  Integers are modelled as `Int`, with the
16-bit reduction `wrap16` written out wherever the C code stores an `int`, and
bytes as `Nat` reduced modulo 256.
-/

namespace Microcontroller

/-! ## Machine integers -/

/-- Reduction of a mathematical integer to a 16-bit two's complement `int`. -/
def wrap16 (x : Int) : Int := (x + 32768) % 65536 - 32768

/-- The byte stored for an integer value (conversion to `unsigned char`). -/
def toByte (x : Int) : Nat := (x % 256).toNat

/-- The cast `(signed char) b` of a byte. -/
def toSignedChar (b : Nat) : Int :=
  if b % 256 < 128 then ((b % 256 : Nat) : Int) else ((b % 256 : Nat) : Int) - 256

/-! ## Data EEPROM (`3 - dc motor/main.c`, lines 49-50) -/

/-- The sixteen bytes programmed by the two `__EEPROM_DATA` lines, in address
order starting at address 0. -/
def EEPROM_DATA : List Nat :=
  [0, 1, -1, 0, -1, 0, 0, 1].map toByte ++ [1, 0, 0, -1, 0, -1, 1, 0].map toByte

/-- `EEPROM_READ(addr)`: the address is an 8-bit register; cells that no
`__EEPROM_DATA` line programs read as the erased value `0xFF`. -/
def EEPROM_READ (addr : Int) : Nat := EEPROM_DATA.getD (toByte addr) 0xFF

/-- The expression `(signed char)EEPROM_READ(cur + 4 * prev)` of `isr`, with the
`int` arithmetic of the index. -/
def decode (prev cur : Int) : Int :=
  toSignedChar (EEPROM_READ (wrap16 (cur + wrap16 (4 * prev))))

/-- Reference quadrature function, written from the specification: `+1` on the
one-bit steps of the cycle `0 -> 1 -> 3 -> 2 -> 0`, `-1` on the one-bit steps of
the reverse cycle `0 -> 2 -> 3 -> 1 -> 0`, and `0` otherwise. -/
def quadRef (prev cur : Nat) : Int :=
  if (prev, cur) ∈ [(0, 1), (1, 3), (3, 2), (2, 0)] then 1
  else if (prev, cur) ∈ [(0, 2), (2, 3), (3, 1), (1, 0)] then -1
  else 0

namespace DcMotor

/-! ## Interrupt handler of the dc-motor program (lines 52-99) -/

/-- The variables `isr` reads and writes: the static `tick`, the two position
counters (`int16_t`) and the two stored encoder states (`int`). -/
structure State where
  tick : Int
  counter1 : Int
  counter2 : Int
  last_state1 : Int
  last_state2 : Int
  deriving DecidableEq, Repr

/-- Values at boot. -/
def State.boot : State := ⟨0, 0, 0, 0, 0⟩

/-- The 2-bit field `(portB >> k) & 0b11` of the snapshot `char portB = PORTB`.
For `k + 1 < 8` the two bits are bits `k` and `k + 1` of the port whether `char`
is signed or unsigned. -/
def field (k : Nat) (PORTB : Nat) : Nat := ((PORTB % 256) >>> k) &&& 0b11

/-- The timer-0 part of `isr` (lines 72-79). -/
def isr_timer0 (s : State) : State :=
  let t := wrap16 (s.tick + 1)
  { s with tick := if t ≥ 20 then 0 else t }

/-- The port-change part of `isr` (lines 82-98), for the snapshot `PORTB`. -/
def isr_portB (PORTB : Nat) (s : State) : State :=
  let state1 : Int := (field 3 PORTB : Nat)
  let state2 : Int := (field 1 PORTB : Nat)
  { s with
    counter1 := wrap16 (s.counter1 + decode s.last_state1 state1)
    counter2 := wrap16 (s.counter2 + (-1) * decode s.last_state2 state2)
    last_state1 := state1
    last_state2 := state2 }

/-- One run of `isr`: `t0` is `TMR0IE && TMR0IF`, `rb` is `RBIE && RBIF`. -/
def isr (t0 rb : Bool) (PORTB : Nat) (s : State) : State :=
  let s1 := if t0 then isr_timer0 s else s
  if rb then isr_portB PORTB s1 else s1

end DcMotor

/-! ## PWM duty-cycle driver (`3 - dc motor/main.c`, lines 257-267) -/

/-- The two 8-bit duty registers. -/
structure Pwm where
  CCPR1L : Nat
  CCPR2L : Nat
  deriving DecidableEq, Repr

/-- The function `pwm_set(channel, duty_cycle)`: the `int` shifted right by two
is stored in the 8-bit register of the channel.  Only the low byte of the
shifted value is kept, and its bits are bits 2-9 of `duty_cycle` whether the
shift of a negative value is arithmetic or logical. -/
def pwm_set (channel duty_cycle : Int) (s : Pwm) : Pwm :=
  let s1 := if channel = 1 then { s with CCPR1L := toByte (duty_cycle >>> (2 : Nat)) } else s
  if channel = 2 then { s1 with CCPR2L := toByte (duty_cycle >>> (2 : Nat)) } else s1

/-- A call `pwm_set(channel, duty)` as it appears in a main loop. -/
structure Call where
  channel : Int
  duty : Int
  deriving DecidableEq, Repr

/-- Registers after a sequence of `pwm_set` calls, executed in order. -/
def runCalls (cs : List Call) (s : Pwm) : Pwm :=
  cs.foldl (fun r c => pwm_set c.channel c.duty r) s

/-- The duty of the last call on `channel` in a sequence, if there is one. -/
def lastDuty (channel : Int) (cs : List Call) : Option Int :=
  ((cs.filter (fun c => c.channel = channel)).getLast?).map Call.duty

namespace DcMotor

/-! ## Obstacle routine of the dc-motor main loop (lines 151-157, 191-205) -/

/-- The local `int pwm_max = 60`. -/
def pwm_max : Int := 60

/-- Lines 192 and 195: `est = ((2914 / (AD_data + 5)) - 1) * 10; est /= 10;`.
The result is `none` when the divisor is zero. -/
def estimate (AD_data : Int) : Option Int :=
  let d := wrap16 (AD_data + 5)
  if d = 0 then none
  else
    let est := wrap16 (wrap16 (Int.tdiv 2914 d - 1) * 10)
    some (Int.tdiv est 10)

/-- Lines 197-205: the calls made for the distance estimate `est` (in cm).
The result is `none` when `est` is zero in the first branch (division by zero). -/
def avoid (est pwm_max : Int) : Option (List Call) :=
  if est ≤ 20 then
    if est = 0 then none
    else
      let spd := wrap16 (Int.tdiv (wrap16 (est - 4)) est * pwm_max)
      some [⟨1, spd⟩, ⟨2, spd⟩]
  else
    some [⟨1, pwm_max⟩]

/-- The calls to `pwm_set` of one iteration of `while (1)`, for the proximity
reading `AD_data` returned by `sensorNear_read()`. -/
def loopCalls (AD_data : Int) : Option (List Call) :=
  match estimate AD_data with
  | none => none
  | some est =>
    match avoid est pwm_max with
    | none => none
    | some cs => some ([⟨1, 600⟩, ⟨2, 600⟩] ++ cs)

end DcMotor

namespace Autonomous

/-! ## Main loop of the autonomous task (`4 - autonomous task/main.c`, lines 161-228) -/

/-- Colours passed to `led_rgb_set_color`. -/
inductive Color where
  | RED | GREEN | BLUE | MAGENTA | BLACK
  deriving DecidableEq, Repr

/-- Outputs of the main loop, in program order. -/
inductive Event where
  | pwm (channel duty : Int)
  | rgb (c : Color)
  | ledToggle
  | lcdGoto (pos : Nat)
  | lcdPutInt (v : Int)
  | lcdPutBlanks (n : Nat)
  | delayMs (n : Nat)
  deriving DecidableEq, Repr

/-- The `pwm_set` calls among the events. -/
def calls : List Event → List Call
  | [] => []
  | Event.pwm ch d :: es => ⟨ch, d⟩ :: calls es
  | _ :: es => calls es

/-- The local `int duty_max = 550`. -/
def duty_max : Int := 550

/-- Modelled from the spec: the constant `TRUE` of `always.h`, a header that is
not among the sources.  The enable flag is toggled by `!`, whose results are 0
and 1, so the enabled value is 1. -/
def TRUE : Int := 1

/-- The expression `5 * duty_cycle / 10` in `int` arithmetic. -/
def half (duty_cycle : Int) : Int := Int.tdiv (wrap16 (5 * duty_cycle)) 10

/-- Lines 175-180: the speed cap and the events of its computation. -/
def speedCap (sensor_distance : Int) : Int × List Event :=
  if sensor_distance ≥ 500 then (0, [Event.rgb Color.RED])
  else (wrap16 (duty_max - sensor_distance), [])

/-- Lines 182-211: the steering `switch`. -/
def steer (sensor_linha duty_cycle : Int) : List Event :=
  if sensor_linha = 2 ∨ sensor_linha = 7 then
    [Event.pwm 1 duty_cycle, Event.pwm 2 duty_cycle, Event.rgb Color.GREEN]
  else if sensor_linha = 6 ∨ sensor_linha = 4 then
    [Event.pwm 1 duty_cycle, Event.pwm 2 (half duty_cycle), Event.rgb Color.BLUE]
  else if sensor_linha = 3 ∨ sensor_linha = 1 then
    [Event.pwm 1 (half duty_cycle), Event.pwm 2 duty_cycle, Event.rgb Color.MAGENTA]
  else
    [Event.pwm 1 (half duty_cycle), Event.pwm 2 duty_cycle, Event.ledToggle,
      Event.rgb Color.BLACK]

/-- Lines 215-226: the key-press branch; returns the new `isOn`. -/
def onKey (isOn : Int) : Int × List Event :=
  let isOn1 : Int := if isOn = 0 then 1 else 0
  (isOn1, [Event.pwm 1 0, Event.pwm 2 0, Event.lcdGoto 0, Event.lcdPutInt isOn1,
    Event.delayMs 150, Event.lcdGoto 0, Event.lcdPutBlanks 5])

/-- One iteration of `while (1)`: `sensor_linha` and `sensor_distance` are the
values the two sensor reads return (read only while enabled), `keyIn` is the
value of `key_pressed()`.  Returns the new `isOn` and the events. -/
def loopBody (isOn sensor_linha sensor_distance : Int) (keyIn : Bool) : Int × List Event :=
  let ev1 :=
    if isOn = TRUE then
      let cap := speedCap sensor_distance
      cap.2 ++ steer sensor_linha cap.1
    else []
  if keyIn then
    let k := onKey isOn
    (k.1, ev1 ++ k.2)
  else (isOn, ev1)

end Autonomous

namespace DcMotor

/-! ## Speed estimate of the dc-motor main loop (lines 142-148, 168-188) -/

/-- Truncation toward zero, the conversion of a real value to an integer. -/
def truncQ (q : ℚ) : Int := if 0 ≤ q then ⌊q⌋ else ⌈q⌉

/-- Assignment of a real value to an `int`: the truncated value when it fits in
16 bits, `none` otherwise. -/
def toInt (q : ℚ) : Option Int :=
  let z := truncQ q
  if -32768 ≤ z ∧ z ≤ 32767 then some z else none

/-- The expression `(diff_count / 48) * 6.28 * 21 / 0.1` assigned to an `int`
(lines 172 and 174): the division by 48 is the division of two `int`s, the
remaining operations are taken over exact rationals. -/
def speed (diff_count : Int) : Option Int :=
  toInt (((Int.tdiv diff_count 48 : Int) : ℚ) * 6.28 * 21 / 0.1)

/-- Reference speed, written from the specification:
`(delta / ticks_per_revolution) * wheel_circumference / sample_period_seconds`
with every operation over exact rationals, truncated at the end. -/
def speedRef (delta : Int) : Int := truncQ ((delta : ℚ) / 48 * 6.28 * 21 / 0.1)

/-- The locals of `main` used by the speed estimate; `spd1` and `spd2` are `none`
when the computed value does not fit in an `int`. -/
structure Speed where
  diff_count1 : Int
  diff_count2 : Int
  last1 : Int
  last2 : Int
  spd1 : Option Int
  spd2 : Option Int
  deriving DecidableEq, Repr

/-- Values of the locals before the loop. -/
def Speed.boot : Speed := ⟨0, 0, 0, 0, some 0, some 0⟩

/-- The body of `if (flag)` (lines 171-178).  The volatile counters are read
twice: `c1`, `c2` are the values read for the differences, `c1u`, `c2u` the
values read for the update of `last1`, `last2`. -/
def sample (c1 c2 c1u c2u : Int) (m : Speed) : Speed :=
  let d1 := wrap16 (c1 - m.last1)
  let d2 := wrap16 (c2 - m.last2)
  { diff_count1 := d1, spd1 := speed d1, diff_count2 := d2, spd2 := speed d2,
    last1 := c1u, last2 := c2u }

end DcMotor

namespace SensorRead

/-! ## Timer-0 interrupt of the sensor-read program (`1 - sensor read/main.c`, lines 51-82) -/

/-- The static `tick` and the globals `counter` and `sum`. -/
structure State where
  tick : Int
  counter : Int
  sum : Int
  deriving DecidableEq, Repr

/-- Values at boot (statics and globals are zero). -/
def State.boot : State := ⟨0, 0, 0⟩

/-- The test `++tick >= 50` of the next timer-0 interrupt. -/
def fires (s : State) : Bool := decide (wrap16 (s.tick + 1) ≥ 50)

/-- The timer-0 part of `isr` (lines 62-82); `reading` is the value that
`sensorNear_read()` returns if it is called. -/
def isr_timer0 (reading : Int) (s : State) : State :=
  let t := wrap16 (s.tick + 1)
  if t ≥ 50 then
    { tick := 0, counter := wrap16 (s.counter + 1), sum := wrap16 (s.sum + reading) }
  else { s with tick := t }

/-- Consecutive timer-0 interrupts, one per element of `readings`. -/
def run : List Int → State → State
  | [], s => s
  | r :: rs, s => run rs (isr_timer0 r s)

/-- Number of interrupts of a run in which the test `++tick >= 50` held. -/
def firings : List Int → State → Nat
  | [], _ => 0
  | r :: rs, s => (if fires s then 1 else 0) + firings rs (isr_timer0 r s)

end SensorRead

namespace Serial

/-! ## Timer-0 interrupt of the serial program (`2 - serial communication/main.c`, lines 56-83) -/

/-- The static `tick` and the global `char current`. -/
structure State where
  tick : Int
  current : Nat
  deriving DecidableEq, Repr

/-- Values at boot: `tick = 0`, `current = 48` (the character `0`). -/
def State.boot : State := ⟨0, 48⟩

/-- The test `++tick >= 10` of the next timer-0 interrupt. -/
def fires (s : State) : Bool := decide (wrap16 (s.tick + 1) ≥ 10)

/-- Lines 72-82: `current++` followed by the two jumps, from 58 (the character
after `9`) to 65 (`A`) and from 91 (the character after `Z`) to 48 (`0`). -/
def advance (current : Nat) : Nat :=
  let c := (current + 1) % 256
  if c = 58 then 65 else if c = 91 then 48 else c

/-- The timer-0 part of `isr` (lines 68-83). -/
def isr_timer0 (s : State) : State :=
  let t := wrap16 (s.tick + 1)
  if t ≥ 10 then { tick := 0, current := advance s.current }
  else { s with tick := t }

/-- The state after `k` consecutive timer-0 interrupts. -/
def run : Nat → State → State
  | 0, s => s
  | k + 1, s => run k (isr_timer0 s)

/-- Number of interrupts among `k` consecutive ones in which `++tick >= 10` held. -/
def firings : Nat → State → Nat
  | 0, _ => 0
  | k + 1, s => (if fires s then 1 else 0) + firings k (isr_timer0 s)

end Serial

/-! ## Lemmas on the machine model -/

theorem wrap16_of_range {x : Int} (h1 : -32768 ≤ x) (h2 : x ≤ 32767) : wrap16 x = x := by
  unfold wrap16
  omega

theorem decode_small (prev cur : Fin 4) :
    decode (prev.val : Nat) (cur.val : Nat) = quadRef prev.val cur.val := by
  revert prev cur
  decide

theorem decode_range (prev cur : Fin 4) :
    decode (prev.val : Nat) (cur.val : Nat) = -1 ∨ decode (prev.val : Nat) (cur.val : Nat) = 0
      ∨ decode (prev.val : Nat) (cur.val : Nat) = 1 := by
  revert prev cur
  decide

theorem field_lt (k PORTB : Nat) : DcMotor.field k PORTB < 4 := by
  unfold DcMotor.field
  have h := Nat.and_pow_two_sub_one_eq_mod ((PORTB % 256) >>> k) 2
  norm_num at h
  rw [h]
  omega

theorem field_three (PORTB : Nat) : DcMotor.field 3 PORTB = PORTB / 8 % 4 := by
  unfold DcMotor.field
  have h := Nat.and_pow_two_sub_one_eq_mod ((PORTB % 256) >>> 3) 2
  norm_num at h
  rw [h, Nat.shiftRight_eq_div_pow]
  omega

theorem field_one (PORTB : Nat) : DcMotor.field 1 PORTB = PORTB / 2 % 4 := by
  unfold DcMotor.field
  have h := Nat.and_pow_two_sub_one_eq_mod ((PORTB % 256) >>> 1) 2
  norm_num at h
  rw [h, Nat.shiftRight_eq_div_pow]
  omega

theorem field_eq_of_bits {k p q : Nat} (h0 : p.testBit k = q.testBit k)
    (h1 : p.testBit (k + 1) = q.testBit (k + 1)) :
    DcMotor.field k p = DcMotor.field k q := by
  unfold DcMotor.field
  apply Nat.eq_of_testBit_eq
  intro i
  have e : (256 : Nat) = 2 ^ 8 := by norm_num
  simp only [Nat.testBit_and, Nat.testBit_shiftRight, e, Nat.testBit_mod_two_pow]
  have h3 : (0b11 : Nat) = 2 ^ 2 - 1 := by norm_num
  rcases i with _ | _ | i
  · simp [h0]
  · simp [h1]
  · have : (0b11 : Nat).testBit (i + 2) = false := by
      rw [h3, Nat.testBit_two_pow_sub_one]
      simp
    simp [this]

/-! ## Quadrature decoder -/

/-- C1: the 16-entry table of the two `__EEPROM_DATA` lines, read at index
`cur + 4 * prev` and cast to `signed char`, equals the reference quadrature
function for every `prev`, `cur` in `{0,1,2,3}`; in particular it is `0` when
`prev = cur` or when both bits differ, and `+1` or `-1` on every one-bit step. -/
theorem decode_table_eq_quadRef :
    ∀ prev cur : Fin 4,
      decode (prev.val : Nat) (cur.val : Nat) = quadRef prev.val cur.val
      ∧ ((prev = cur ∨ prev.val + cur.val = 3) → decode (prev.val : Nat) (cur.val : Nat) = 0)
      ∧ (¬ (prev = cur ∨ prev.val + cur.val = 3) →
          decode (prev.val : Nat) (cur.val : Nat) = 1
            ∨ decode (prev.val : Nat) (cur.val : Nat) = -1) := by
  decide

theorem decode_of_range {a b : Int} (ha0 : 0 ≤ a) (ha3 : a ≤ 3) (hb0 : 0 ≤ b) (hb3 : b ≤ 3) :
    decode a b = quadRef a.toNat b.toNat
      ∧ (decode a b = -1 ∨ decode a b = 0 ∨ decode a b = 1) := by
  have ha : ((a.toNat : Nat) : Int) = a := Int.toNat_of_nonneg ha0
  have hb : ((b.toNat : Nat) : Int) = b := Int.toNat_of_nonneg hb0
  constructor
  · have h := decode_small ⟨a.toNat, by omega⟩ ⟨b.toNat, by omega⟩
    dsimp only at h
    rw [ha, hb] at h
    exact h
  · have h := decode_range ⟨a.toNat, by omega⟩ ⟨b.toNat, by omega⟩
    dsimp only at h
    rw [ha, hb] at h
    exact h

theorem field_range (k PORTB : Nat) :
    (0 : Int) ≤ ((DcMotor.field k PORTB : Nat) : Int)
      ∧ ((DcMotor.field k PORTB : Nat) : Int) ≤ 3 := by
  have h := field_lt k PORTB
  omega

namespace DcMotor

/-- C2: from a state whose stored encoder states are in `{0,1,2,3}` and whose
counters are strictly inside the `int16` limits, one port-change pass of `isr`
changes `counter1` by -1, 0 or +1 and `counter2` by -1, 0 or +1, for every
`PORTB` snapshot. -/
theorem isr_counter_step (t0 : Bool) (PORTB : Nat) (s : State)
    (h1 : 0 ≤ s.last_state1 ∧ s.last_state1 ≤ 3)
    (h2 : 0 ≤ s.last_state2 ∧ s.last_state2 ≤ 3)
    (hc1 : -32768 < s.counter1 ∧ s.counter1 < 32767)
    (hc2 : -32768 < s.counter2 ∧ s.counter2 < 32767) :
    ((isr t0 true PORTB s).counter1 - s.counter1 = -1
        ∨ (isr t0 true PORTB s).counter1 - s.counter1 = 0
        ∨ (isr t0 true PORTB s).counter1 - s.counter1 = 1)
      ∧ ((isr t0 true PORTB s).counter2 - s.counter2 = -1
        ∨ (isr t0 true PORTB s).counter2 - s.counter2 = 0
        ∨ (isr t0 true PORTB s).counter2 - s.counter2 = 1) := by
  obtain ⟨f3a, f3b⟩ := field_range 3 PORTB
  obtain ⟨f1a, f1b⟩ := field_range 1 PORTB
  have d1 := (decode_of_range h1.1 h1.2 f3a f3b).2
  have d2 := (decode_of_range h2.1 h2.2 f1a f1b).2
  have e1 : (isr t0 true PORTB s).counter1
      = wrap16 (s.counter1 + decode s.last_state1 (field 3 PORTB : Nat)) := by
    cases t0 <;> rfl
  have e2 : (isr t0 true PORTB s).counter2
      = wrap16 (s.counter2 + (-1) * decode s.last_state2 (field 1 PORTB : Nat)) := by
    cases t0 <;> rfl
  rw [e1, e2, wrap16_of_range (by omega) (by omega), wrap16_of_range (by omega) (by omega)]
  omega

/-- Witness for C2: the boot state and the snapshot `0b00001010`. -/
theorem isr_counter_step_witness :
    ((isr false true 0b00001010 State.boot).counter1 - State.boot.counter1 = -1
        ∨ (isr false true 0b00001010 State.boot).counter1 - State.boot.counter1 = 0
        ∨ (isr false true 0b00001010 State.boot).counter1 - State.boot.counter1 = 1)
      ∧ ((isr false true 0b00001010 State.boot).counter2 - State.boot.counter2 = -1
        ∨ (isr false true 0b00001010 State.boot).counter2 - State.boot.counter2 = 0
        ∨ (isr false true 0b00001010 State.boot).counter2 - State.boot.counter2 = 1) :=
  isr_counter_step false 0b00001010 State.boot (by decide) (by decide) (by decide) (by decide)

/-- C3, counterexample: from the boot state the snapshot `0b00000010` moves wheel 2
from state 0 to state 1, the table value there is `+1`, and `counter2` becomes
`-1`, not `0 + 1`. -/
theorem isr_wheel2_not_plus_table :
    field 1 0b00000010 = 1
      ∧ decode State.boot.last_state2 (field 1 0b00000010 : Nat) = 1
      ∧ (isr false true 0b00000010 State.boot).counter2 = -1
      ∧ (isr false true 0b00000010 State.boot).counter2
          ≠ State.boot.counter2 + decode State.boot.last_state2 (field 1 0b00000010 : Nat) := by
  decide

/-- C3, amended: for stored previous states in `{0,1,2,3}`, a port-change event
sets `counter1` to the 16-bit sum of its old value and the quadrature value at
(previous state, current state), sets `counter2` to the 16-bit difference of
its old value and that quadrature value, and stores the current 2-bit states
extracted from the snapshot (bits 3-4 and bits 1-2) as the previous states;
strictly inside the `int16` limits the sum and the difference are exact. -/
theorem isr_position_update (t0 : Bool) (PORTB : Nat) (s : State)
    (h1 : 0 ≤ s.last_state1 ∧ s.last_state1 ≤ 3)
    (h2 : 0 ≤ s.last_state2 ∧ s.last_state2 ≤ 3) :
    (isr t0 true PORTB s).counter1
        = wrap16 (s.counter1 + quadRef s.last_state1.toNat (PORTB / 8 % 4))
      ∧ (isr t0 true PORTB s).counter2
        = wrap16 (s.counter2 - quadRef s.last_state2.toNat (PORTB / 2 % 4))
      ∧ (isr t0 true PORTB s).last_state1 = ((PORTB / 8 % 4 : Nat) : Int)
      ∧ (isr t0 true PORTB s).last_state2 = ((PORTB / 2 % 4 : Nat) : Int)
      ∧ (-32768 < s.counter1 ∧ s.counter1 < 32767 →
          (isr t0 true PORTB s).counter1
            = s.counter1 + quadRef s.last_state1.toNat (PORTB / 8 % 4))
      ∧ (-32768 < s.counter2 ∧ s.counter2 < 32767 →
          (isr t0 true PORTB s).counter2
            = s.counter2 - quadRef s.last_state2.toNat (PORTB / 2 % 4)) := by
  have g3 : field 3 PORTB = PORTB / 8 % 4 := field_three PORTB
  have g1 : field 1 PORTB = PORTB / 2 % 4 := field_one PORTB
  obtain ⟨f3a, f3b⟩ := field_range 3 PORTB
  obtain ⟨f1a, f1b⟩ := field_range 1 PORTB
  obtain ⟨d1, r1⟩ := decode_of_range h1.1 h1.2 f3a f3b
  obtain ⟨d2, r2⟩ := decode_of_range h2.1 h2.2 f1a f1b
  rw [Int.toNat_ofNat] at d1 d2
  have e1 : (isr t0 true PORTB s).counter1
      = wrap16 (s.counter1 + decode s.last_state1 (field 3 PORTB : Nat)) := by
    cases t0 <;> rfl
  have e2 : (isr t0 true PORTB s).counter2
      = wrap16 (s.counter2 + (-1) * decode s.last_state2 (field 1 PORTB : Nat)) := by
    cases t0 <;> rfl
  have e3 : (isr t0 true PORTB s).last_state1 = (field 3 PORTB : Nat) := by
    cases t0 <;> rfl
  have e4 : (isr t0 true PORTB s).last_state2 = (field 1 PORTB : Nat) := by
    cases t0 <;> rfl
  have n2 : s.counter2 + (-1) * decode s.last_state2 (field 1 PORTB : Nat)
      = s.counter2 - decode s.last_state2 (field 1 PORTB : Nat) := by ring
  rw [e1, e2, e3, e4, n2, d1, d2, g3, g1]
  rw [d1, g3] at r1
  rw [d2, g1] at r2
  refine ⟨rfl, rfl, rfl, rfl, ?_, ?_⟩
  · intro hc
    exact wrap16_of_range (by omega) (by omega)
  · intro hc
    exact wrap16_of_range (by omega) (by omega)

/-- Witness for C3 (amended): the boot state and the snapshot `0b00001010`. -/
theorem isr_position_update_witness :
    (isr false true 0b00001010 State.boot).counter1 = 1
      ∧ (isr false true 0b00001010 State.boot).counter2 = -1
      ∧ (isr false true 0b00001010 State.boot).last_state1 = 1
      ∧ (isr false true 0b00001010 State.boot).last_state2 = 1 := by
  have h := isr_position_update false 0b00001010 State.boot (by decide) (by decide)
  obtain ⟨a, b, c, d, -, -⟩ := h
  rw [a, b, c, d]
  decide

/-- C4: the two wheels are decoded from disjoint bit fields.  For two snapshots
that agree on bits 3 and 4 and two prior states that agree on `counter1` and
`last_state1`, the port-change handler yields the same `counter1` and
`last_state1`, whatever the other bits and the wheel-2 state are; symmetrically
for bits 1 and 2 and wheel 2. -/
theorem isr_wheels_independent (t0 t0' : Bool) (p q : Nat) (s t : State) :
    (p.testBit 3 = q.testBit 3 → p.testBit 4 = q.testBit 4 →
      s.counter1 = t.counter1 → s.last_state1 = t.last_state1 →
        (isr t0 true p s).counter1 = (isr t0' true q t).counter1
          ∧ (isr t0 true p s).last_state1 = (isr t0' true q t).last_state1)
      ∧ (p.testBit 1 = q.testBit 1 → p.testBit 2 = q.testBit 2 →
        s.counter2 = t.counter2 → s.last_state2 = t.last_state2 →
          (isr t0 true p s).counter2 = (isr t0' true q t).counter2
            ∧ (isr t0 true p s).last_state2 = (isr t0' true q t).last_state2) := by
  constructor
  · intro b3 b4 hc hl
    have hf := field_eq_of_bits b3 b4
    cases t0 <;> cases t0' <;> simp [isr, isr_portB, isr_timer0, hf, hc, hl]
  · intro b1 b2 hc hl
    have hf := field_eq_of_bits b1 b2
    cases t0 <;> cases t0' <;> simp [isr, isr_portB, isr_timer0, hf, hc, hl]

/-- Witness for C4: snapshots `0b00001000` and `0b11101111` agree on bits 3-4 only;
snapshots `0b00000100` and `0b11111101` agree on bits 1-2 only. -/
theorem isr_wheels_independent_witness :
    ((isr false true 0b00001000 State.boot).counter1
        = (isr true true 0b11101111 ⟨7, 0, 55, 0, 2⟩).counter1
      ∧ (isr false true 0b00001000 State.boot).last_state1
        = (isr true true 0b11101111 ⟨7, 0, 55, 0, 2⟩).last_state1)
    ∧ ((isr false true 0b00000100 State.boot).counter2
        = (isr true true 0b11111101 ⟨7, 12, 0, 3, 0⟩).counter2
      ∧ (isr false true 0b00000100 State.boot).last_state2
        = (isr true true 0b11111101 ⟨7, 12, 0, 3, 0⟩).last_state2) :=
  ⟨(isr_wheels_independent false true 0b00001000 0b11101111 State.boot ⟨7, 0, 55, 0, 2⟩).1
      (by decide) (by decide) (by decide) (by decide),
    (isr_wheels_independent false true 0b00000100 0b11111101 State.boot ⟨7, 12, 0, 3, 0⟩).2
      (by decide) (by decide) (by decide) (by decide)⟩

end DcMotor

/-! ## PWM driver -/

theorem toByte_shift (d : Int) : toByte (d >>> (2 : Nat)) = ((d / 4) % 256).toNat := by
  unfold toByte
  rw [Int.shiftRight_eq_div_pow]
  norm_num

/-- C5, counterexample: `pwm_set(1, -5)` writes 254, not 0, and
`pwm_set(1, 1023 + 100)` writes 24, not the value 255 written for 1023. -/
theorem pwm_set_does_not_clamp :
    (pwm_set 1 (-5) ⟨0, 0⟩).CCPR1L = 254
      ∧ (pwm_set 1 (-5) ⟨0, 0⟩).CCPR1L ≠ 0
      ∧ (pwm_set 1 (1023 + 100) ⟨0, 0⟩).CCPR1L = 24
      ∧ (pwm_set 1 1023 ⟨0, 0⟩).CCPR1L = 255
      ∧ (pwm_set 1 (1023 + 100) ⟨0, 0⟩).CCPR1L ≠ (pwm_set 1 1023 ⟨0, 0⟩).CCPR1L := by
  decide

/-- C5, amended: `pwm_set` does not clamp.  For every duty the value written to
the register of channel 1 or 2 is the low byte of `duty >> 2`, that is
`floor(duty / 4) mod 256`.  For `-1020 ≤ duty < 0` this is `256 + floor(duty / 4)`,
a value in `[1, 255]` and never 0; for `1023 < duty ≤ 2047` it is
`floor(duty / 4) - 256`. -/
theorem pwm_set_low_byte (d : Int) (s : Pwm) :
    (pwm_set 1 d s).CCPR1L = ((d / 4) % 256).toNat
      ∧ (pwm_set 2 d s).CCPR2L = ((d / 4) % 256).toNat
      ∧ (-1020 ≤ d ∧ d < 0 →
          ((pwm_set 1 d s).CCPR1L : Int) = 256 + d / 4 ∧ 1 ≤ (pwm_set 1 d s).CCPR1L
            ∧ ((pwm_set 2 d s).CCPR2L : Int) = 256 + d / 4 ∧ 1 ≤ (pwm_set 2 d s).CCPR2L)
      ∧ (1023 < d ∧ d ≤ 2047 →
          ((pwm_set 1 d s).CCPR1L : Int) = d / 4 - 256
            ∧ ((pwm_set 2 d s).CCPR2L : Int) = d / 4 - 256) := by
  have e1 : (pwm_set 1 d s).CCPR1L = ((d / 4) % 256).toNat := by
    simp [pwm_set, toByte_shift]
  have e2 : (pwm_set 2 d s).CCPR2L = ((d / 4) % 256).toNat := by
    simp [pwm_set, toByte_shift]
  rw [e1, e2]
  refine ⟨rfl, rfl, ?_, ?_⟩
  · intro h
    omega
  · intro h
    omega

/-- Witness for C5 (amended): duty `-5` on registers `(7, 9)`. -/
theorem pwm_set_low_byte_witness :
    ((pwm_set 1 (-5) ⟨7, 9⟩).CCPR1L : Int) = 256 + (-5) / 4
      ∧ 1 ≤ (pwm_set 1 (-5) ⟨7, 9⟩).CCPR1L
      ∧ ((pwm_set 2 (-5) ⟨7, 9⟩).CCPR2L : Int) = 256 + (-5) / 4
      ∧ 1 ≤ (pwm_set 2 (-5) ⟨7, 9⟩).CCPR2L :=
  (pwm_set_low_byte (-5) ⟨7, 9⟩).2.2.1 (by decide)

/-- C6: for a duty in `[0, 1023]`, `pwm_set(1, duty)` writes `floor(duty / 4)`, a
value in `[0, 255]`, to `CCPR1L` and leaves `CCPR2L` unchanged, and
`pwm_set(2, duty)` writes it to `CCPR2L` and leaves `CCPR1L` unchanged. -/
theorem pwm_set_in_range (d : Int) (s : Pwm) (h0 : 0 ≤ d) (h1 : d ≤ 1023) :
    ((pwm_set 1 d s).CCPR1L : Int) = d / 4
      ∧ (pwm_set 1 d s).CCPR2L = s.CCPR2L
      ∧ ((pwm_set 2 d s).CCPR2L : Int) = d / 4
      ∧ (pwm_set 2 d s).CCPR1L = s.CCPR1L
      ∧ 0 ≤ d / 4 ∧ d / 4 ≤ 255
      ∧ 4 * (d / 4) ≤ d ∧ d < 4 * (d / 4) + 4 := by
  have e1 : (pwm_set 1 d s).CCPR1L = ((d / 4) % 256).toNat := by
    simp [pwm_set, toByte_shift]
  have e2 : (pwm_set 2 d s).CCPR2L = ((d / 4) % 256).toNat := by
    simp [pwm_set, toByte_shift]
  have e3 : (pwm_set 1 d s).CCPR2L = s.CCPR2L := by simp [pwm_set]
  have e4 : (pwm_set 2 d s).CCPR1L = s.CCPR1L := by simp [pwm_set]
  rw [e1, e2, e3, e4]
  refine ⟨?_, rfl, ?_, rfl, ?_, ?_, ?_, ?_⟩ <;> omega

/-- Witness for C6: duty 600 on registers `(7, 9)`. -/
theorem pwm_set_in_range_witness :
    ((pwm_set 1 600 ⟨7, 9⟩).CCPR1L : Int) = 150 ∧ (pwm_set 1 600 ⟨7, 9⟩).CCPR2L = 9
      ∧ ((pwm_set 2 600 ⟨7, 9⟩).CCPR2L : Int) = 150 ∧ (pwm_set 2 600 ⟨7, 9⟩).CCPR1L = 7 := by
  obtain ⟨a, b, c, d, -⟩ := pwm_set_in_range 600 ⟨7, 9⟩ (by decide) (by decide)
  exact ⟨by rw [a]; decide, b, by rw [c]; decide, d⟩

/-! ## Motion decisions of the autonomous task -/

theorem calls_append (a b : List Autonomous.Event) :
    Autonomous.calls (a ++ b) = Autonomous.calls a ++ Autonomous.calls b := by
  induction a with
  | nil => rfl
  | cons e es ih => cases e <;> simp [Autonomous.calls, ih]

theorem half_eq (c : Int) (h0 : 0 ≤ c) (h1 : c ≤ 550) : Autonomous.half c = c / 2 := by
  unfold Autonomous.half
  rw [wrap16_of_range (by omega) (by omega), Int.tdiv_eq_ediv (by omega) (by omega)]
  omega

theorem lastDuty_stop (cs : List Call) :
    lastDuty 1 (cs ++ [⟨1, 0⟩, ⟨2, 0⟩]) = some 0
      ∧ lastDuty 2 (cs ++ [⟨1, 0⟩, ⟨2, 0⟩]) = some 0 := by
  constructor
  · have h : ([⟨1, 0⟩, ⟨2, 0⟩] : List Call).filter (fun c => c.channel = 1) = [⟨1, 0⟩] := by
      decide
    simp [lastDuty, List.filter_append, h, List.getLast?_append]
  · have h : ([⟨1, 0⟩, ⟨2, 0⟩] : List Call).filter (fun c => c.channel = 2) = [⟨2, 0⟩] := by
      decide
    simp [lastDuty, List.filter_append, h, List.getLast?_append]

namespace Autonomous

/-- C7: for a speed cap `c` in `[0, 550]` the steering switch commands
(channel 1, channel 2) with `(c, c)` for line code 2 or 7, `(c, floor(c/2))` for
4 or 6, `(floor(c/2), c)` for 1 or 3 and `(floor(c/2), c)` for every other line
code, where `5 * c / 10` is `floor(c/2)`; and while enabled, an iteration
without a key press issues exactly the commands of the switch at the computed
cap. -/
theorem steer_decision_table (line c : Int) (h0 : 0 ≤ c) (h1 : c ≤ 550) :
    half c = c / 2
      ∧ (line = 2 ∨ line = 7 → calls (steer line c) = [⟨1, c⟩, ⟨2, c⟩])
      ∧ (line = 4 ∨ line = 6 → calls (steer line c) = [⟨1, c⟩, ⟨2, c / 2⟩])
      ∧ (line = 1 ∨ line = 3 → calls (steer line c) = [⟨1, c / 2⟩, ⟨2, c⟩])
      ∧ (¬ (line = 2 ∨ line = 7 ∨ line = 4 ∨ line = 6 ∨ line = 1 ∨ line = 3) →
          calls (steer line c) = [⟨1, c / 2⟩, ⟨2, c⟩])
      ∧ (∀ dist : Int, calls (loopBody TRUE line dist false).2
          = calls (steer line (speedCap dist).1)) := by
  have hh := half_eq c h0 h1
  refine ⟨hh, ?_, ?_, ?_, ?_, ?_⟩
  · intro h
    simp [steer, h, calls]
  · intro h
    rcases h with h | h <;> subst h <;> simp [steer, calls, hh]
  · intro h
    rcases h with h | h <;> subst h <;> simp [steer, calls, hh]
  · intro h
    have a : ¬ (line = 2 ∨ line = 7) := fun x => h (by tauto)
    have b : ¬ (line = 6 ∨ line = 4) := fun x => h (by tauto)
    have d : ¬ (line = 3 ∨ line = 1) := fun x => h (by tauto)
    simp [steer, a, b, d, calls, hh]
  · intro dist
    unfold loopBody speedCap
    by_cases hd : dist ≥ 500 <;> simp [hd, calls_append, calls]

/-- Witness for C7: line code 5 and cap 301. -/
theorem steer_decision_table_witness :
    calls (steer 5 301) = [⟨1, 150⟩, ⟨2, 301⟩] :=
  (steer_decision_table 5 301 (by decide) (by decide)).2.2.2.2.1 (by decide)

/-- C8: for either enable state, every line code and every proximity reading, an
iteration in which `key_pressed()` returns true ends with the last `pwm_set`
call on channel 1 and on channel 2 having duty 0 and with `isOn` inverted. -/
theorem key_press_stops_both (isOn line dist : Int) (h : isOn = 0 ∨ isOn = 1) :
    lastDuty 1 (calls (loopBody isOn line dist true).2) = some 0
      ∧ lastDuty 2 (calls (loopBody isOn line dist true).2) = some 0
      ∧ (loopBody isOn line dist true).1 = 1 - isOn
      ∧ ((loopBody isOn line dist true).1 = TRUE ↔ ¬ isOn = TRUE) := by
  have hk : calls (onKey isOn).2 = [⟨1, 0⟩, ⟨2, 0⟩] := rfl
  have e : calls (loopBody isOn line dist true).2
      = calls (if isOn = TRUE then (speedCap dist).2 ++ steer line (speedCap dist).1 else [])
        ++ [⟨1, 0⟩, ⟨2, 0⟩] := by
    simp only [loopBody, if_true, calls_append, hk]
  have e1 : (loopBody isOn line dist true).1 = if isOn = 0 then 1 else 0 := rfl
  rw [e, e1]
  refine ⟨(lastDuty_stop _).1, (lastDuty_stop _).2, ?_, ?_⟩
  · rcases h with h | h <;> subst h <;> decide
  · rcases h with h | h <;> subst h <;> decide

/-- Witness for C8: enabled, on the line (code 2), reading 120. -/
theorem key_press_stops_both_witness :
    lastDuty 1 (calls (loopBody 1 2 120 true).2) = some 0
      ∧ lastDuty 2 (calls (loopBody 1 2 120 true).2) = some 0
      ∧ (loopBody 1 2 120 true).1 = 1 - 1
      ∧ ((loopBody 1 2 120 true).1 = TRUE ↔ ¬ (1 : Int) = TRUE) :=
  key_press_stops_both 1 2 120 (Or.inr rfl)

end Autonomous

/-! ## Obstacle routine of the dc-motor program -/

namespace DcMotor

/-- C9, evaluation: for the reading 170 the distance estimate is 15 cm and both
channels are commanded with duty 0; the same holds for every estimate from 5 to
20, because `(est - 4) / est` is an integer division with result 0. -/
theorem avoid_ramp_is_zero :
    estimate 170 = some 15
      ∧ avoid 15 pwm_max = some [⟨1, 0⟩, ⟨2, 0⟩]
      ∧ loopCalls 170 = some [⟨1, 600⟩, ⟨2, 600⟩, ⟨1, 0⟩, ⟨2, 0⟩]
      ∧ ∀ k : Fin 16, avoid ((k.val : Nat) + 5) pwm_max = some [⟨1, 0⟩, ⟨2, 0⟩] := by
  decide

/-- C10, evaluation: for the reading 100 the distance estimate is 26 cm; the
routine calls `pwm_set(1, pwm_max)` only, so the last duty on channel 2 is the
600 of the loop head and the registers end as `(15, 150)`. -/
theorem avoid_far_leaves_channel2 :
    estimate 100 = some 26
      ∧ avoid 26 pwm_max = some [⟨1, pwm_max⟩]
      ∧ loopCalls 100 = some [⟨1, 600⟩, ⟨2, 600⟩, ⟨1, 60⟩]
      ∧ lastDuty 1 [⟨1, 600⟩, ⟨2, 600⟩, ⟨1, 60⟩] = some 60
      ∧ lastDuty 2 [⟨1, 600⟩, ⟨2, 600⟩, ⟨1, 60⟩] = some 600
      ∧ runCalls [⟨1, 600⟩, ⟨2, 600⟩, ⟨1, 60⟩] ⟨0, 0⟩ = ⟨15, 150⟩ := by
  decide

end DcMotor

/-! ## Distance estimate of the dc-motor program -/

theorem estimate_eq (raw : Int) (h0 : 0 ≤ raw) (h1 : raw ≤ 1023) :
    DcMotor.estimate raw = some (2914 / (raw + 5) - 1)
      ∧ 2 ≤ 2914 / (raw + 5) ∧ 2914 / (raw + 5) ≤ 582 := by
  have hd : wrap16 (raw + 5) = raw + 5 := wrap16_of_range (by omega) (by omega)
  have hq : Int.tdiv 2914 (raw + 5) = 2914 / (raw + 5) :=
    Int.tdiv_eq_ediv (by omega) (by omega)
  have hpos : (0 : Int) < raw + 5 := by omega
  have lo : 2 ≤ 2914 / (raw + 5) := by
    rw [Int.le_ediv_iff_mul_le hpos]
    omega
  have hi : 2914 / (raw + 5) ≤ 582 := by
    have : 2914 / (raw + 5) < 583 := by
      rw [Int.ediv_lt_iff_lt_mul hpos]
      omega
    omega
  refine ⟨?_, lo, hi⟩
  unfold DcMotor.estimate
  simp only [hd, hq]
  have hne : ¬ raw + 5 = 0 := by omega
  have w1 : wrap16 (2914 / (raw + 5) - 1) = 2914 / (raw + 5) - 1 :=
    wrap16_of_range (by omega) (by omega)
  have w2 : wrap16 ((2914 / (raw + 5) - 1) * 10) = (2914 / (raw + 5) - 1) * 10 :=
    wrap16_of_range (by omega) (by omega)
  rw [if_neg hne, w1, w2, Int.tdiv_eq_ediv (by omega) (by omega)]
  congr 1
  omega

theorem quotient_antitone (a b : Int) (ha : 0 < a) (hab : a ≤ b) :
    2914 / b ≤ 2914 / a := by
  have hb : 0 < b := by omega
  rw [Int.le_ediv_iff_mul_le ha]
  have h1 : 2914 / b * b ≤ 2914 := Int.ediv_mul_le 2914 (by omega)
  have h2 : 0 ≤ 2914 / b := Int.ediv_nonneg (by omega) (by omega)
  nlinarith

namespace DcMotor

/-- C11: for every reading `raw` in `[0, 1023]` the distance compared with the
20 cm threshold is `floor(2914 / (raw + 5)) - 1`; the intermediate value scaled
by 10 fits in a 16-bit `int` and dividing it by 10 again gives the same value
back; and the distance is non-increasing in `raw`. -/
theorem estimate_formula (raw : Int) (h0 : 0 ≤ raw) (h1 : raw ≤ 1023) :
    estimate raw = some (2914 / (raw + 5) - 1)
      ∧ -32768 ≤ (2914 / (raw + 5) - 1) * 10 ∧ (2914 / (raw + 5) - 1) * 10 ≤ 32767
      ∧ Int.tdiv ((2914 / (raw + 5) - 1) * 10) 10 = 2914 / (raw + 5) - 1
      ∧ ∀ raw2 : Int, raw ≤ raw2 → raw2 ≤ 1023 →
          ∃ e1 e2 : Int, estimate raw = some e1 ∧ estimate raw2 = some e2 ∧ e2 ≤ e1 := by
  obtain ⟨e, lo, hi⟩ := estimate_eq raw h0 h1
  refine ⟨e, by omega, by omega, ?_, ?_⟩
  · rw [Int.tdiv_eq_ediv (by omega) (by omega)]
    omega
  · intro raw2 h2 h3
    obtain ⟨e2, -, -⟩ := estimate_eq raw2 (by omega) h3
    refine ⟨_, _, e, e2, ?_⟩
    have := quotient_antitone (raw + 5) (raw2 + 5) (by omega) (by omega)
    omega

/-- Witness for C11: the readings 170 and 500. -/
theorem estimate_formula_witness :
    estimate 170 = some (2914 / (170 + 5) - 1)
      ∧ ∃ e1 e2 : Int, estimate 170 = some e1 ∧ estimate 500 = some e2 ∧ e2 ≤ e1 :=
  ⟨(estimate_formula 170 (by decide) (by decide)).1,
    (estimate_formula 170 (by decide) (by decide)).2.2.2.2 500 (by decide) (by decide)⟩

end DcMotor

/-! ## Speed estimate of the dc-motor program -/

theorem speed_of_small (d : Int) (h : Int.tdiv d 48 = 0) : DcMotor.speed d = some 0 := by
  simp [DcMotor.speed, DcMotor.toInt, DcMotor.truncQ, h]

theorem tdiv_small (d : Int) (h1 : -48 < d) (h2 : d < 48) : Int.tdiv d 48 = 0 := by
  rcases Int.le_total 0 d with hd | hd
  · rw [Int.tdiv_eq_ediv hd (by omega)]
    omega
  · have e : d = -(-d) := by omega
    rw [e, Int.neg_tdiv, Int.tdiv_eq_ediv (by omega) (by omega)]
    omega

theorem wrap16_sub_self (c : Int) : wrap16 (c - c) = 0 := by
  unfold wrap16
  omega

namespace DcMotor

/-- C12: for each wheel, when the counter read at a speed sample equals the stored
last value, the speed computed by that sample is exactly 0 and the stored last
value becomes the counter; a following sample with the same counter value
computes exactly 0 again.  The other wheel's readings (`x`, `y`) are arbitrary. -/
theorem sample_unchanged_is_zero (m : Speed) (c x y x2 y2 : Int) :
    (m.last1 = c →
        (sample c x c y m).spd1 = some 0 ∧ (sample c x c y m).last1 = c
          ∧ (sample c x2 c y2 (sample c x c y m)).spd1 = some 0)
      ∧ (m.last2 = c →
        (sample x c y c m).spd2 = some 0 ∧ (sample x c y c m).last2 = c
          ∧ (sample x2 c y2 c (sample x c y c m)).spd2 = some 0) := by
  have z := speed_of_small (wrap16 (c - c)) (by rw [wrap16_sub_self]; rfl)
  constructor
  · intro h
    subst h
    exact ⟨z, rfl, z⟩
  · intro h
    subst h
    exact ⟨z, rfl, z⟩

/-- Witness for C12: counters unchanged at 37 on both wheels. -/
theorem sample_unchanged_is_zero_witness :
    ((sample 37 5 37 6 ⟨0, 0, 37, 37, none, none⟩).spd1 = some 0
        ∧ (sample 37 5 37 6 ⟨0, 0, 37, 37, none, none⟩).last1 = 37
        ∧ (sample 37 7 37 8 (sample 37 5 37 6 ⟨0, 0, 37, 37, none, none⟩)).spd1 = some 0)
      ∧ ((sample 5 37 6 37 ⟨0, 0, 37, 37, none, none⟩).spd2 = some 0
        ∧ (sample 5 37 6 37 ⟨0, 0, 37, 37, none, none⟩).last2 = 37
        ∧ (sample 7 37 8 37 (sample 5 37 6 37 ⟨0, 0, 37, 37, none, none⟩)).spd2 = some 0) :=
  ⟨(sample_unchanged_is_zero ⟨0, 0, 37, 37, none, none⟩ 37 5 6 7 8).1 rfl,
    (sample_unchanged_is_zero ⟨0, 0, 37, 37, none, none⟩ 37 5 6 7 8).2 rfl⟩

/-- C15, evaluation: for a position delta of 10 (and of -10) the computed speed is
0, because `diff_count / 48` is a division of two `int`s; the formula taken over
exact rationals gives 274 for delta 10.  The same holds for every delta with
`0 < |delta| < 48`, taken from the boot values of the locals. -/
theorem speed_loses_sign :
    speed 10 = some 0 ∧ speed (-10) = some 0 ∧ speedRef 10 = 274
      ∧ (sample 10 (-10) 10 (-10) Speed.boot).spd1 = some 0
      ∧ (sample 10 (-10) 10 (-10) Speed.boot).spd2 = some 0
      ∧ ∀ k : Fin 47, speed ((k.val : Int) + 1) = some 0
          ∧ speed (-((k.val : Int) + 1)) = some 0 := by
  have a : speed 10 = some 0 := speed_of_small 10 (by decide)
  have b : speed (-10) = some 0 := speed_of_small (-10) (by decide)
  refine ⟨a, b, ?_, ?_, ?_, ?_⟩
  · have hq : ((10 : Int) : ℚ) / 48 * 6.28 * 21 / 0.1 = 1099 / 4 := by norm_num
    have hn : (0 : ℚ) ≤ 1099 / 4 := by norm_num
    unfold speedRef truncQ
    rw [hq, if_pos hn, Int.floor_eq_iff]
    constructor <;> norm_num
  · have e : wrap16 (10 - Speed.boot.last1) = 10 := by decide
    simp only [sample, e, a]
  · have e : wrap16 (-10 - Speed.boot.last2) = -10 := by decide
    simp only [sample, e, b]
  · intro k
    have hk := k.isLt
    exact ⟨speed_of_small _ (tdiv_small _ (by omega) (by omega)),
      speed_of_small _ (tdiv_small _ (by omega) (by omega))⟩

end DcMotor

/-! ## Periodic tick service -/

theorem wrap16_bounds (x : Int) : -32768 ≤ wrap16 x ∧ wrap16 x ≤ 32767 := by
  unfold wrap16
  omega

theorem wrap16_succ_add (c n : Int) : wrap16 (wrap16 (c + 1) + n) = wrap16 (c + (n + 1)) := by
  unfold wrap16
  omega

theorem sensor_step (r : Int) (s : SensorRead.State) (t : Nat) (ht : s.tick = t) (h : t < 50) :
    (t = 49 → SensorRead.fires s = true
        ∧ SensorRead.isr_timer0 r s = ⟨0, wrap16 (s.counter + 1), wrap16 (s.sum + r)⟩)
      ∧ (t ≠ 49 → SensorRead.fires s = false
        ∧ SensorRead.isr_timer0 r s = ⟨((t + 1 : Nat) : Int), s.counter, s.sum⟩) := by
  have w : wrap16 (s.tick + 1) = s.tick + 1 := wrap16_of_range (by omega) (by omega)
  constructor
  · intro h49
    have hge : s.tick + 1 ≥ 50 := by omega
    simp [SensorRead.fires, SensorRead.isr_timer0, w, hge]
  · intro h49
    have hlt : ¬ s.tick + 1 ≥ 50 := by omega
    have e : s.tick + 1 = ((t + 1 : Nat) : Int) := by omega
    have hs : SensorRead.isr_timer0 r s = ⟨s.tick + 1, s.counter, s.sum⟩ := by
      simp [SensorRead.isr_timer0, w, hlt]
    refine ⟨by simp [SensorRead.fires, w, hlt], ?_⟩
    rw [hs, e]

theorem sensor_run_inv (rs : List Int) :
    ∀ (s : SensorRead.State) (t : Nat), s.tick = t → t < 50 →
      -32768 ≤ s.counter → s.counter ≤ 32767 →
      (SensorRead.run rs s).tick = (((t + rs.length) % 50 : Nat) : Int)
        ∧ SensorRead.firings rs s = (t + rs.length) / 50
        ∧ (SensorRead.run rs s).counter
            = wrap16 (s.counter + (((t + rs.length) / 50 : Nat) : Int)) := by
  induction rs with
  | nil =>
    intro s t ht h c0 c1
    have hrun : SensorRead.run [] s = s := rfl
    have hfir : SensorRead.firings [] s = 0 := rfl
    rw [hrun, hfir, List.length_nil]
    refine ⟨by omega, by omega, ?_⟩
    have z : (((t + 0) / 50 : Nat) : Int) = 0 := by omega
    rw [z, Int.add_zero, wrap16_of_range c0 c1]
  | cons r rs ih =>
    intro s t ht h c0 c1
    obtain ⟨f49, n49⟩ := sensor_step r s t ht h
    have hrun : SensorRead.run (r :: rs) s = SensorRead.run rs (SensorRead.isr_timer0 r s) := rfl
    have hfir : SensorRead.firings (r :: rs) s
        = (if SensorRead.fires s then 1 else 0)
          + SensorRead.firings rs (SensorRead.isr_timer0 r s) := rfl
    rw [hrun, hfir, List.length_cons]
    by_cases h49 : t = 49
    · obtain ⟨hf, hs⟩ := f49 h49
      obtain ⟨b0, b1⟩ := wrap16_bounds (s.counter + 1)
      obtain ⟨i1, i2, i3⟩ :=
        ih ⟨0, wrap16 (s.counter + 1), wrap16 (s.sum + r)⟩ 0 rfl (by omega) b0 b1
      rw [hf, hs, i1, i2, i3, if_pos rfl]
      refine ⟨by omega, by omega, ?_⟩
      rw [wrap16_succ_add]
      congr 1
      omega
    · obtain ⟨hf, hs⟩ := n49 h49
      obtain ⟨i1, i2, i3⟩ :=
        ih ⟨((t + 1 : Nat) : Int), s.counter, s.sum⟩ (t + 1) rfl (by omega) c0 c1
      rw [hf, hs, i1, i2, i3]
      refine ⟨by omega, by simp; omega, ?_⟩
      show wrap16 (s.counter + _) = wrap16 (s.counter + _)
      congr 2
      omega

theorem serial_step (s : Serial.State) (t : Nat) (ht : s.tick = t) (h : t < 10) :
    (t = 9 → Serial.fires s = true
        ∧ Serial.isr_timer0 s = ⟨0, Serial.advance s.current⟩)
      ∧ (t ≠ 9 → Serial.fires s = false
        ∧ Serial.isr_timer0 s = ⟨((t + 1 : Nat) : Int), s.current⟩) := by
  have w : wrap16 (s.tick + 1) = s.tick + 1 := wrap16_of_range (by omega) (by omega)
  constructor
  · intro h9
    have hge : s.tick + 1 ≥ 10 := by omega
    simp [Serial.fires, Serial.isr_timer0, w, hge]
  · intro h9
    have hlt : ¬ s.tick + 1 ≥ 10 := by omega
    have e : s.tick + 1 = ((t + 1 : Nat) : Int) := by omega
    have hs : Serial.isr_timer0 s = ⟨s.tick + 1, s.current⟩ := by
      simp [Serial.isr_timer0, w, hlt]
    refine ⟨by simp [Serial.fires, w, hlt], ?_⟩
    rw [hs, e]

theorem serial_run_inv (k : Nat) :
    ∀ (s : Serial.State) (t : Nat), s.tick = t → t < 10 →
      (Serial.run k s).tick = (((t + k) % 10 : Nat) : Int)
        ∧ Serial.firings k s = (t + k) / 10
        ∧ (Serial.run k s).current = Serial.advance^[(t + k) / 10] s.current := by
  induction k with
  | zero =>
    intro s t ht h
    have hrun : Serial.run 0 s = s := rfl
    have hfir : Serial.firings 0 s = 0 := rfl
    have z : (t + 0) / 10 = 0 := by omega
    rw [hrun, hfir, z]
    exact ⟨by omega, rfl, rfl⟩
  | succ k ih =>
    intro s t ht h
    obtain ⟨f9, n9⟩ := serial_step s t ht h
    have hrun : Serial.run (k + 1) s = Serial.run k (Serial.isr_timer0 s) := rfl
    have hfir : Serial.firings (k + 1) s
        = (if Serial.fires s then 1 else 0) + Serial.firings k (Serial.isr_timer0 s) := rfl
    rw [hrun, hfir]
    by_cases h9 : t = 9
    · obtain ⟨hf, hs⟩ := f9 h9
      obtain ⟨i1, i2, i3⟩ := ih ⟨0, Serial.advance s.current⟩ 0 rfl (by omega)
      rw [hf, hs, i1, i2, i3, if_pos rfl]
      have b : (t + (k + 1)) / 10 = (0 + k) / 10 + 1 := by omega
      rw [b]
      exact ⟨by omega, by omega, (Function.iterate_succ_apply _ _ _).symm⟩
    · obtain ⟨hf, hs⟩ := n9 h9
      obtain ⟨i1, i2, i3⟩ := ih ⟨((t + 1 : Nat) : Int), s.current⟩ (t + 1) rfl (by omega)
      rw [hf, hs, i1, i2, i3]
      have a : t + 1 + k = t + (k + 1) := by omega
      rw [a]
      exact ⟨rfl, by simp, rfl⟩

/-- C13: starting from `tick = 0` at boot, after `k` timer-0 interrupts the tick
counter is `k mod N`, lies in `[0, N)`, and the test `++tick >= N` has held in
exactly `floor(k / N)` of them, with `N = 50` in the sensor-read program and
`N = 10` in the serial program.  In the sensor-read program each firing
increments `counter` and adds the reading to `sum`, so `counter` is `floor(k / 50)`
as an `int`; in the serial program each firing advances the character once. -/
theorem tick_counts (readings : List Int) (k : Nat) :
    ((SensorRead.run readings SensorRead.State.boot).tick = ((readings.length % 50 : Nat) : Int)
        ∧ 0 ≤ (SensorRead.run readings SensorRead.State.boot).tick
        ∧ (SensorRead.run readings SensorRead.State.boot).tick < 50
        ∧ SensorRead.firings readings SensorRead.State.boot = readings.length / 50
        ∧ (SensorRead.run readings SensorRead.State.boot).counter
            = wrap16 ((readings.length / 50 : Nat) : Int)
        ∧ ∀ (r : Int) (s : SensorRead.State),
            (SensorRead.fires s = true →
              (SensorRead.isr_timer0 r s).counter = wrap16 (s.counter + 1)
                ∧ (SensorRead.isr_timer0 r s).sum = wrap16 (s.sum + r))
            ∧ (SensorRead.fires s = false →
              (SensorRead.isr_timer0 r s).counter = s.counter
                ∧ (SensorRead.isr_timer0 r s).sum = s.sum))
      ∧ ((Serial.run k Serial.State.boot).tick = ((k % 10 : Nat) : Int)
        ∧ 0 ≤ (Serial.run k Serial.State.boot).tick
        ∧ (Serial.run k Serial.State.boot).tick < 10
        ∧ Serial.firings k Serial.State.boot = k / 10
        ∧ (Serial.run k Serial.State.boot).current = Serial.advance^[k / 10] 48) := by
  obtain ⟨a1, a2, a3⟩ :=
    sensor_run_inv readings SensorRead.State.boot 0 rfl (by omega) (by decide) (by decide)
  obtain ⟨b1, b2, b3⟩ := serial_run_inv k Serial.State.boot 0 rfl (by omega)
  rw [Nat.zero_add] at a1 a2 a3 b1 b2 b3
  refine ⟨⟨a1, by omega, by omega, a2, ?_, ?_⟩, ⟨b1, by omega, by omega, b2, b3⟩⟩
  · rw [a3]
    have : SensorRead.State.boot.counter = 0 := rfl
    rw [this, Int.zero_add]
  · intro r s
    constructor
    · intro hf
      have : wrap16 (s.tick + 1) ≥ 50 := by simpa [SensorRead.fires] using hf
      simp [SensorRead.isr_timer0, this]
    · intro hf
      have : ¬ wrap16 (s.tick + 1) ≥ 50 := by simpa [SensorRead.fires] using hf
      simp [SensorRead.isr_timer0, this]

/-! ## Duty range and divisions of the dc-motor obstacle routine -/

namespace DcMotor

/-- C14, evaluation: for the reading 1000 the distance estimate is 1 cm and both
channels are called with duty -180, which the registers store as 211; for the
reading 800 the estimate is 2 cm, the duty is -60 and the registers store 241. -/
theorem avoid_negative_duty :
    estimate 1000 = some 1
      ∧ loopCalls 1000 = some [⟨1, 600⟩, ⟨2, 600⟩, ⟨1, -180⟩, ⟨2, -180⟩]
      ∧ runCalls [⟨1, 600⟩, ⟨2, 600⟩, ⟨1, -180⟩, ⟨2, -180⟩] ⟨0, 0⟩ = ⟨211, 211⟩
      ∧ estimate 800 = some 2
      ∧ loopCalls 800 = some [⟨1, 600⟩, ⟨2, 600⟩, ⟨1, -60⟩, ⟨2, -60⟩]
      ∧ runCalls [⟨1, 600⟩, ⟨2, 600⟩, ⟨1, -60⟩, ⟨2, -60⟩] ⟨0, 0⟩ = ⟨241, 241⟩ := by
  decide

/-- C16: for every reading `raw` in `[0, 1023]` the divisor `raw + 5` is not zero,
the distance estimate `2914 / (raw + 5) - 1` is at least 1, so the divisor of
`(est - 4) / est` is not zero, and the obstacle routine and the whole iteration
produce their calls. -/
theorem no_division_by_zero (raw : Int) (h0 : 0 ≤ raw) (h1 : raw ≤ 1023) :
    wrap16 (raw + 5) ≠ 0
      ∧ estimate raw = some (2914 / (raw + 5) - 1)
      ∧ 1 ≤ 2914 / (raw + 5) - 1
      ∧ (avoid (2914 / (raw + 5) - 1) pwm_max).isSome = true
      ∧ (loopCalls raw).isSome = true := by
  obtain ⟨e, lo, hi⟩ := estimate_eq raw h0 h1
  have hd : wrap16 (raw + 5) = raw + 5 := wrap16_of_range (by omega) (by omega)
  have hne : ¬ 2914 / (raw + 5) - 1 = 0 := by omega
  have ha : (avoid (2914 / (raw + 5) - 1) pwm_max).isSome = true := by
    unfold avoid
    by_cases h20 : 2914 / (raw + 5) - 1 ≤ 20
    · rw [if_pos h20, if_neg hne]
      rfl
    · rw [if_neg h20]
      rfl
  refine ⟨by rw [hd]; omega, e, by omega, ha, ?_⟩
  unfold loopCalls
  rw [e]
  cases hav : avoid (2914 / (raw + 5) - 1) pwm_max with
  | none => rw [hav] at ha; exact absurd ha (by decide)
  | some cs =>
    simp only [hav]
    rfl

/-- Witness for C16: the largest reading, 1023. -/
theorem no_division_by_zero_witness :
    wrap16 (1023 + 5) ≠ 0
      ∧ estimate 1023 = some (2914 / (1023 + 5) - 1)
      ∧ 1 ≤ (2914 : Int) / (1023 + 5) - 1
      ∧ (avoid (2914 / (1023 + 5) - 1) pwm_max).isSome = true
      ∧ (loopCalls 1023).isSome = true :=
  no_division_by_zero 1023 (by decide) (by decide)

end DcMotor

/-! ## Speed cap of the autonomous task -/

theorem steer_calls_mem (line c : Int) :
    ∀ x ∈ Autonomous.calls (Autonomous.steer line c),
      x.duty = c ∨ x.duty = Autonomous.half c := by
  intro x hx
  unfold Autonomous.steer at hx
  split_ifs at hx <;> simp only [Autonomous.calls, List.mem_cons, List.mem_nil_iff,
    or_false] at hx <;> rcases hx with hx | hx <;> subst hx <;> simp

theorem loopBody_calls (line dist : Int) :
    Autonomous.calls (Autonomous.loopBody Autonomous.TRUE line dist false).2
      = Autonomous.calls (Autonomous.steer line (Autonomous.speedCap dist).1) := by
  unfold Autonomous.loopBody Autonomous.speedCap
  by_cases hd : dist ≥ 500 <;> simp [hd, calls_append, Autonomous.calls]

theorem speedCap_eq (raw : Int) (h0 : 0 ≤ raw) (h1 : raw ≤ 1023) :
    (Autonomous.speedCap raw).1 = if raw ≥ 500 then 0 else 550 - raw := by
  unfold Autonomous.speedCap Autonomous.duty_max
  by_cases hd : raw ≥ 500
  · rw [if_pos hd, if_pos hd]
  · rw [if_neg hd, if_neg hd]
    exact wrap16_of_range (by omega) (by omega)

namespace Autonomous

/-- C17: for every reading `raw` in `[0, 1023]` and every line code, the speed cap
is 0 when `raw >= 500` and `550 - raw`, a value in `[51, 550]`, otherwise; every
duty passed to `pwm_set` in the enabled branch lies in `[0, duty_max]`; the
product `5 * duty_cycle` fits in a 16-bit `int`; and the cap is non-increasing
in `raw`. -/
theorem speedCap_bounds (raw line : Int) (h0 : 0 ≤ raw) (h1 : raw ≤ 1023) :
    (speedCap raw).1 = (if raw ≥ 500 then 0 else 550 - raw)
      ∧ (raw < 500 → 51 ≤ (speedCap raw).1 ∧ (speedCap raw).1 ≤ 550)
      ∧ (∀ x ∈ calls (loopBody TRUE line raw false).2, 0 ≤ x.duty ∧ x.duty ≤ duty_max)
      ∧ (-32768 ≤ 5 * (speedCap raw).1 ∧ 5 * (speedCap raw).1 ≤ 32767)
      ∧ (∀ raw2 : Int, raw ≤ raw2 → raw2 ≤ 1023 → (speedCap raw2).1 ≤ (speedCap raw).1) := by
  have e := speedCap_eq raw h0 h1
  have r0 : 0 ≤ (speedCap raw).1 ∧ (speedCap raw).1 ≤ 550 := by
    rw [e]
    split_ifs <;> omega
  refine ⟨e, ?_, ?_, by omega, ?_⟩
  · intro h
    rw [e, if_neg (by omega)]
    omega
  · intro x hx
    rw [loopBody_calls] at hx
    have hh := half_eq (speedCap raw).1 r0.1 r0.2
    unfold duty_max
    rcases steer_calls_mem line (speedCap raw).1 x hx with hx | hx
    · rw [hx]
      exact r0
    · rw [hx, hh]
      omega
  · intro raw2 h2 h3
    rw [e, speedCap_eq raw2 (by omega) h3]
    split_ifs <;> omega

/-- Witness for C17: reading 120 on line code 4. -/
theorem speedCap_bounds_witness :
    (speedCap 120).1 = (if (120 : Int) ≥ 500 then 0 else 550 - 120)
      ∧ ∀ x ∈ calls (loopBody TRUE 4 120 false).2, 0 ≤ x.duty ∧ x.duty ≤ duty_max :=
  ⟨(speedCap_bounds 120 4 (by decide) (by decide)).1,
    (speedCap_bounds 120 4 (by decide) (by decide)).2.2.1⟩

end Autonomous

end Microcontroller
